import Mathlib

/-!
Verification of the `tag-parser` library (`src/lib.rs`) against its
specification.

The parser is embedded shallowly at character granularity: Rust `String`
and `&str` become `List Char`.  The source's `line[1..line.len() - 1]`
byte slice can panic (index out of range when the comment-stripped header
is the single character `[`); every function that can reach that slice is
therefore `Option`-valued, with `none` modelling the panic.  UTF-8
byte-boundary panics inside multi-byte characters are below the
granularity of this model; no claim depends on them.
-/

namespace TagLib

/-- `Group` (src/lib.rs, lines 20-26): a named collection of tags. -/
structure Group where
  name : List Char
  tags : List (List Char)
deriving DecidableEq, Repr

/-- `TagParser` (src/lib.rs, lines 67-73): the input buffer `data` and the
accumulated `groups`. -/
structure TagParser where
  data : List Char
  groups : List Group
deriving DecidableEq, Repr

/-- Remove one trailing carriage return, as Rust `str::lines` does for each
`\n`-terminated line. -/
def stripCR (l : List Char) : List Char :=
  if l.getLast? = some '\r' then l.dropLast else l

/-- Accumulator-style splitter behind `strLines`; `acc` holds the current
line reversed. -/
def strLinesAux : List Char → List Char → List (List Char)
  | [], acc => if acc = [] then [] else [acc.reverse]
  | '\n' :: rest, acc => stripCR acc.reverse :: strLinesAux rest []
  | c :: rest, acc => strLinesAux rest (c :: acc)

/-- Rust `str::lines` (used at src/lib.rs line 127): split at `\n`, strip a
trailing `\r` from each terminated line, no trailing empty line when the
input ends with `\n`, and the final unterminated line is kept verbatim. -/
def strLines (s : List Char) : List (List Char) :=
  strLinesAux s []

/-- The filter at src/lib.rs line 128:
`!line.is_empty() && !line.starts_with('#')` — note that both tests are on
the raw line, with no whitespace trimming. -/
def keepLine (l : List Char) : Bool :=
  !l.isEmpty && !(l.head? == some '#')

/-- `line.split('#').next().unwrap()` (src/lib.rs lines 139 and 146): the
text before the first `#`. -/
def stripComment (l : List Char) : List Char :=
  l.takeWhile (fun c => c ≠ '#')

/-- Rust `str::trim`: drop whitespace from both ends. -/
def trim (l : List Char) : List Char :=
  ((l.dropWhile Char.isWhitespace).reverse.dropWhile Char.isWhitespace).reverse

/-- `line[1..line.len() - 1].trim()` (src/lib.rs line 140) applied to the
comment-stripped, trimmed header line.  In Rust the slice panics when
`1 > line.len() - 1`, i.e. when the stripped header is shorter than two
characters; that panic is modelled as `none`. -/
def headerName (stripped : List Char) : Option (List Char) :=
  if stripped.length < 2 then none
  else some (trim ((stripped.drop 1).take (stripped.length - 2)))

/-- The header branch of the loop (src/lib.rs lines 130-140): if the current
group's name is non-empty, push it and start afresh; then set the new name
from the bracketed text. -/
def headerApply : Group × List Group → List Char → Option (Group × List Group)
  | (g, gs), l =>
    let pushed : Group × List Group :=
      if g.name = [] then (g, gs) else (⟨[], []⟩, gs ++ [g])
    match headerName (trim (stripComment l)) with
    | none => none
    | some nm => some (⟨nm, pushed.1.tags⟩, pushed.2)

/-- One iteration of the `for line in …` loop body (src/lib.rs lines
130-147), acting on the state (current group, groups pushed so far). -/
def step : Group × List Group → List Char → Option (Group × List Group)
  | (g, gs), l =>
    if l.head? = some '[' then headerApply (g, gs) l
    else if g.name = [] then some (g, gs)
    else some (⟨g.name, g.tags ++ [trim (stripComment l)]⟩, gs)

/-- The whole `for` loop: fold `step` over the retained lines. -/
def runLines : Group × List Group → List (List Char) → Option (Group × List Group)
  | st, [] => some st
  | st, l :: ls =>
    match step st l with
    | none => none
    | some st' => runLines st' ls

/-- `TagParser::parse` (src/lib.rs lines 119-151): iterate the loop over the
filtered lines of `data`, starting from a fresh accumulator and the
already-stored groups, then push the final accumulator unconditionally
(line 150).  `data` is only read, never written. -/
def TagParser.parse (p : TagParser) : Option TagParser :=
  match runLines (⟨[], []⟩, p.groups) ((strLines p.data).filter keepLine) with
  | none => none
  | some (g, gs) => some ⟨p.data, gs ++ [g]⟩

/-- The loop plus the final push, run on an explicit list of raw lines with
no pre-existing groups; `TagParser.parse` on a string is exactly this
applied to `strLines data`. -/
def processAll (ls : List (List Char)) : Option (List Group) :=
  match runLines (⟨[], []⟩, []) (ls.filter keepLine) with
  | none => none
  | some (g, gs) => some (gs ++ [g])

/-- The group list produced by one `parse` of a fresh parser over `d`. -/
def TagParser.parseData (d : List Char) : Option (List Group) :=
  (TagParser.parse ⟨d, []⟩).map TagParser.groups

/-- `impl From<&str> for TagParser` (src/lib.rs lines 171-179): build the
parser with empty `groups` and immediately call `parse`. -/
def TagParser.fromStr (d : List Char) : Option TagParser :=
  TagParser.parse ⟨d, []⟩

/-- `impl From<String> for TagParser` (src/lib.rs lines 199-201): delegates
to the `&str` conversion. -/
def TagParser.fromString (d : List Char) : Option TagParser :=
  TagParser.fromStr d

/-! ## Helper lemmas about the loop -/

/-- A retained line that does not begin with `[` leaves an empty-named
accumulator state untouched (the `continue` branch, src/lib.rs line 142). -/
lemma step_skip_eq (g : Group) (gs : List Group) (l : List Char)
    (hl : l.head? ≠ some '[') (hg : g.name = []) :
    step (g, gs) l = some (g, gs) := by
  simp [step, hl, hg]

/-- A line that does not begin with `[`, met while a named group is open, is
appended as one comment-stripped, trimmed tag (src/lib.rs lines 143-147). -/
lemma step_tag_eq (g : Group) (gs : List Group) (l : List Char)
    (hg : g.name ≠ []) (hl : l.head? ≠ some '[') :
    step (g, gs) l = some (⟨g.name, g.tags ++ [trim (stripComment l)]⟩, gs) := by
  simp [step, hl, hg]

/-- Folding over lines none of which begins with `[`, from an empty-named
accumulator, changes nothing. -/
lemma runLines_no_header (ls : List (List Char)) (g : Group) (gs : List Group)
    (hg : g.name = []) (h : ∀ l ∈ ls, l.head? ≠ some '[') :
    runLines (g, gs) ls = some (g, gs) := by
  induction ls with
  | nil => rfl
  | cons l ls ih =>
    simp only [runLines, step_skip_eq g gs l (h l (List.mem_cons_self l ls)) hg]
    exact ih fun x hx => h x (List.mem_cons_of_mem l hx)

/-- The loop over a concatenation is the loop over the first part bound into
the loop over the second. -/
lemma runLines_append (st : Group × List Group) (l1 l2 : List (List Char)) :
    runLines st (l1 ++ l2) = (runLines st l1).bind fun st' => runLines st' l2 := by
  induction l1 generalizing st with
  | nil => simp [runLines]
  | cons l ls ih =>
    simp only [List.cons_append, runLines]
    cases step st l with
    | none => rfl
    | some st' => exact ih st'

/-- One loop iteration only ever appends to the groups list, so a prefix of
already-stored groups is carried through unchanged. -/
lemma step_groupsPre (pre : List Group) (g : Group) (gs : List Group) (l : List Char) :
    step (g, pre ++ gs) l = (step (g, gs) l).map fun st => (st.1, pre ++ st.2) := by
  by_cases hl : l.head? = some '['
  · by_cases hg : g.name = [] <;>
      · simp only [step, hl, if_true, headerApply, hg]
        cases headerName (trim (stripComment l)) <;> simp [List.append_assoc]
  · by_cases hg : g.name = [] <;> simp [step, hl, hg]

/-- The whole loop carries a prefix of already-stored groups through
unchanged. -/
lemma runLines_groupsPre (ls : List (List Char)) (pre : List Group)
    (g : Group) (gs : List Group) :
    runLines (g, pre ++ gs) ls = (runLines (g, gs) ls).map fun st => (st.1, pre ++ st.2) := by
  induction ls generalizing g gs with
  | nil => rfl
  | cons l ls ih =>
    simp only [runLines, step_groupsPre]
    cases h : step (g, gs) l with
    | none => rfl
    | some st' =>
      simp only [Option.map_some']
      exact ih st'.1 st'.2

/-- `parse` on a parser holding `gs0` groups already equals `parse` on a fresh
parser with `gs0` prepended to the new groups. -/
lemma parse_append (d : List Char) (gs0 : List Group) :
    TagParser.parse ⟨d, gs0⟩ =
      (TagParser.parse ⟨d, []⟩).map fun p => ⟨d, gs0 ++ p.groups⟩ := by
  have h := runLines_groupsPre ((strLines d).filter keepLine) gs0 ⟨[], []⟩ []
  rw [List.append_nil] at h
  simp only [TagParser.parse, h]
  cases runLines (⟨[], []⟩, ([] : List Group)) ((strLines d).filter keepLine) with
  | none => rfl
  | some st => simp [List.append_assoc]

/-- `parse` never writes the `data` field. -/
lemma parse_keeps_buffer (p p' : TagParser) (h : TagParser.parse p = some p') :
    p'.data = p.data := by
  unfold TagParser.parse at h
  cases hr : runLines (⟨[], []⟩, p.groups) ((strLines p.data).filter keepLine) with
  | none => rw [hr] at h; exact absurd h (by simp)
  | some st =>
    rw [hr] at h
    cases st with
    | mk g gs =>
      simp only [Option.some.injEq] at h
      rw [← h]

/-- The filter retains exactly the lines that are non-empty and do not begin
with the character `#`. -/
lemma keepLine_false_iff (l : List Char) :
    keepLine l = false ↔ (l = [] ∨ l.head? = some '#') := by
  cases l with
  | nil => simp [keepLine]
  | cons c cs => simp [keepLine]

/-! ## The claims -/

/-- C1: a single `parse` of `"[A]\nx\n[B]\ny\n"` produces exactly two groups
in source order: `A` with tags `["x"]`, then `B` with tags `["y"]`, and no
additional trailing group. -/
theorem c1_two_groups_in_order :
    TagParser.parseData "[A]\nx\n[B]\ny\n".toList =
      some [⟨"A".toList, ["x".toList]⟩, ⟨"B".toList, ["y".toList]⟩] := by decide

/-- C2 (code behavior at the failing input): on a header line lacking a
closing `]` the code does not produce any error value — there is no
`MalformedHeader` in the source at all.  On `"[Unterminated"` it silently
emits a group named `"Unterminate"`, slicing off the final character; on the
one-character header `"["` the slice `line[1..line.len()-1]` is out of
bounds (a panic, modelled as `none`). -/
theorem c2_unterminated_header_code_behavior :
    TagParser.parseData "[Unterminated\n".toList =
      some [⟨"Unterminate".toList, []⟩] ∧
    TagParser.parseData "[\n".toList = none := by decide

/-- C3: after the loop, the in-progress accumulator is always appended as the
final element, so a successful parse never returns an empty group list; and
when no retained line begins with `[` (empty, comment-only, or header-less
input) the result is exactly one group with the empty name. -/
theorem c3_final_accumulator_always_appended :
    (∀ (d : List Char) (gs : List Group),
      TagParser.parseData d = some gs → gs ≠ []) ∧
    (∀ d : List Char, (∀ l ∈ (strLines d).filter keepLine, l.head? ≠ some '[') →
      TagParser.parseData d = some [⟨[], []⟩]) := by
  constructor
  · intro d gs h
    unfold TagParser.parseData TagParser.parse at h
    cases hr : runLines (⟨[], []⟩, ([] : List Group)) ((strLines d).filter keepLine) with
    | none => rw [hr] at h; exact absurd h (by simp)
    | some st =>
      rw [hr] at h
      cases st with
      | mk g gs' =>
        simp only [Option.map_some', Option.some.injEq] at h
        rw [← h]
        simp [TagParser.groups]
  · intro d h
    unfold TagParser.parseData TagParser.parse
    rw [runLines_no_header _ ⟨[], []⟩ [] rfl h]
    rfl

theorem c3_witness :
    TagParser.parseData "# only\n".toList = some [⟨[], []⟩] ∧
    ([⟨[], []⟩] : List Group) ≠ [] :=
  ⟨c3_final_accumulator_always_appended.2 "# only\n".toList (by decide),
   c3_final_accumulator_always_appended.1 "# only\n".toList [⟨[], []⟩]
     (c3_final_accumulator_always_appended.2 "# only\n".toList (by decide))⟩

/-- C4 is refuted: the line `" #c"` is empty after whitespace trimming up to
its first non-whitespace character `#`, yet it is NOT discarded — inside
group `A` it becomes an empty-string tag, so the parse differs from the
parse without that line. -/
theorem c4_counterexample_leading_ws_comment_becomes_tag :
    TagParser.parseData "[A]\n #c\n".toList = some [⟨"A".toList, [[]]⟩] ∧
    TagParser.parseData "[A]\n".toList = some [⟨"A".toList, []⟩] := by decide

/-- C4 (amended): a line is discarded exactly when it is empty (after line
splitting, which removed the terminators) or its FIRST character — not its
first non-whitespace character — is `#`; such discarded lines contribute
nothing to the output wherever they occur. -/
theorem c4_amended_discard_rule :
    (∀ l : List Char, keepLine l = false ↔ (l = [] ∨ l.head? = some '#')) ∧
    (∀ (pre post : List (List Char)) (l : List Char),
      (l = [] ∨ l.head? = some '#') →
      processAll (pre ++ l :: post) = processAll (pre ++ post)) := by
  refine ⟨keepLine_false_iff, ?_⟩
  intro pre post l h
  unfold processAll
  rw [List.filter_append, List.filter_append,
    List.filter_cons_of_neg (by simp [(keepLine_false_iff l).2 h])]

theorem c4_amended_witness :
    processAll ["[A]".toList, "#x".toList, "t".toList] =
      processAll ["[A]".toList, "t".toList] ∧
    keepLine "#x".toList = false :=
  ⟨c4_amended_discard_rule.2 ["[A]".toList] ["t".toList] "#x".toList
      (Or.inr (by decide)),
   (c4_amended_discard_rule.1 "#x".toList).2 (Or.inr (by decide))⟩

/-- C5 is refuted: the line `" [B]"` has stripped, trimmed form `"[B]"`,
which begins with `[`, yet it is NOT parsed as a header naming a new group —
it becomes the tag `"[B]"` of the open group `A`, so `"[A]\n [B]\n"` yields
one group, not two. -/
theorem c5_counterexample_leading_ws_header_is_tag :
    TagParser.parseData "[A]\n [B]\n".toList =
      some [⟨"A".toList, ["[B]".toList]⟩] := by decide

/-- C5 (amended): header dispatch is on the RAW first character of the line:
a retained line is processed by the header rule exactly when its raw text
begins with `[`; a retained line not beginning with `[` (in particular one
with leading whitespace before `[`) never finalizes or emits a group and
never fails — the stored groups list passes through unchanged. -/
theorem c5_amended_raw_first_char_dispatch :
    (∀ (st : Group × List Group) (l : List Char),
      l.head? = some '[' → step st l = headerApply st l) ∧
    (∀ (g : Group) (gs : List Group) (l : List Char),
      l.head? ≠ some '[' → (step (g, gs) l).map Prod.snd = some gs) := by
  constructor
  · intro st l hl
    cases st with
    | mk g gs => simp [step, hl]
  · intro g gs l hl
    by_cases hg : g.name = [] <;> simp [step, hl, hg]

theorem c5_amended_witness :
    (step (⟨"A".toList, []⟩, ([] : List Group)) " [B]".toList).map Prod.snd =
      some ([] : List Group) ∧
    " [B]".toList.head? ≠ some '[' :=
  ⟨c5_amended_raw_first_char_dispatch.2 ⟨"A".toList, []⟩ [] " [B]".toList
      (by decide),
   by decide⟩

/-- C6: `parse` is not idempotent — a second `parse` on the same instance
appends a duplicate copy of the parsed groups, so after two calls the stored
sequence is the once-parsed sequence concatenated with itself. -/
theorem c6_double_parse_duplicates :
    ∀ (d : List Char) (p1 p2 : TagParser),
      TagParser.parse ⟨d, []⟩ = some p1 → TagParser.parse p1 = some p2 →
      p2.groups = p1.groups ++ p1.groups := by
  intro d p1 p2 h1 h2
  have hd1 : p1.data = d := parse_keeps_buffer _ _ h1
  have hp1 : p1 = ⟨d, p1.groups⟩ := by
    cases p1 with
    | mk pd pg => simp only at hd1; rw [hd1]
  rw [hp1, parse_append d p1.groups, h1] at h2
  simp only [Option.map_some', Option.some.injEq] at h2
  rw [← h2]

theorem c6_witness :
    (⟨"[A]\nx\n".toList,
      [⟨"A".toList, ["x".toList]⟩, ⟨"A".toList, ["x".toList]⟩]⟩ : TagParser).groups =
    (⟨"[A]\nx\n".toList, [⟨"A".toList, ["x".toList]⟩]⟩ : TagParser).groups ++
    (⟨"[A]\nx\n".toList, [⟨"A".toList, ["x".toList]⟩]⟩ : TagParser).groups :=
  c6_double_parse_duplicates "[A]\nx\n".toList
    ⟨"[A]\nx\n".toList, [⟨"A".toList, ["x".toList]⟩]⟩
    ⟨"[A]\nx\n".toList, [⟨"A".toList, ["x".toList]⟩, ⟨"A".toList, ["x".toList]⟩]⟩
    (by decide) (by decide)

/-- C7: retained lines occurring before the first header, none of which
begins with `[`, are silently discarded — dropping them does not change the
parse — and concretely `"loose\n[A]\nx\n"` yields exactly one group `A` with
tags `["x"]`, with `"loose"` appearing nowhere. -/
theorem c7_orphan_lines_discarded :
    (∀ pre rest : List (List Char), (∀ l ∈ pre, l.head? ≠ some '[') →
      processAll (pre ++ rest) = processAll rest) ∧
    TagParser.parseData "loose\n[A]\nx\n".toList =
      some [⟨"A".toList, ["x".toList]⟩] := by
  constructor
  · intro pre rest h
    unfold processAll
    rw [List.filter_append, runLines_append,
      runLines_no_header (pre.filter keepLine) ⟨[], []⟩ [] rfl
        (fun l hl => h l (List.mem_of_mem_filter hl))]
    rfl
  · decide

theorem c7_witness :
    processAll ["loose".toList, "[A]".toList] = processAll ["[A]".toList] :=
  c7_orphan_lines_discarded.1 ["loose".toList] ["[A]".toList] (by decide)

/-- C8: each retained line not beginning with `[`, met while a named group is
open, contributes exactly one tag: the text before the first `#`, trimmed of
surrounding whitespace, kept verbatim with no whitespace splitting —
`"tag # note"` yields the tag `"tag"` and `"red_hair female dress"` is one
tag. -/
theorem c8_one_tag_per_line :
    (∀ (g : Group) (gs : List Group) (l : List Char),
      g.name ≠ [] → l.head? ≠ some '[' →
      step (g, gs) l = some (⟨g.name, g.tags ++ [trim (stripComment l)]⟩, gs)) ∧
    TagParser.parseData "[A]\ntag # note\n".toList =
      some [⟨"A".toList, ["tag".toList]⟩] ∧
    TagParser.parseData "[A]\nred_hair female dress\n".toList =
      some [⟨"A".toList, ["red_hair female dress".toList]⟩] :=
  ⟨fun g gs l hg hl => step_tag_eq g gs l hg hl, by decide, by decide⟩

theorem c8_witness :
    step (⟨"A".toList, []⟩, ([] : List Group)) "tag # note".toList =
      some (⟨"A".toList, ["tag".toList]⟩, ([] : List Group)) ∧
    "A".toList ≠ ([] : List Char) := by
  refine ⟨?_, by decide⟩
  rw [c8_one_tag_per_line.1 ⟨"A".toList, []⟩ [] "tag # note".toList
    (by decide) (by decide)]
  decide

/-- C9: constructing a parser from an in-memory string eagerly parses during
construction, so `groups` read immediately afterwards is the fully parsed
sequence for that string, with no explicit `parse` call; the `String`
conversion delegates to the `&str` one. -/
theorem c9_construction_is_preparsed :
    (∀ d : List Char,
      (TagParser.fromStr d).map TagParser.groups = TagParser.parseData d) ∧
    (∀ d : List Char, TagParser.fromString d = TagParser.fromStr d) ∧
    (TagParser.fromStr "[A]\nx\n".toList).map TagParser.groups =
      some [⟨"A".toList, ["x".toList]⟩] :=
  ⟨fun _ => rfl, fun _ => rfl, by decide⟩

/-- C10: `parse` mutates only the `groups` field — the `data` buffer of the
result is the buffer of the input parser, so any later `parse` call observes
the buffer supplied at construction. -/
theorem c10_parse_preserves_data :
    ∀ p p' : TagParser, TagParser.parse p = some p' → p'.data = p.data :=
  fun p p' h => parse_keeps_buffer p p' h

theorem c10_witness :
    (⟨"[A]\n".toList, [⟨"A".toList, ([] : List (List Char))⟩]⟩ : TagParser).data =
      (⟨"[A]\n".toList, ([] : List Group)⟩ : TagParser).data :=
  c10_parse_preserves_data ⟨"[A]\n".toList, []⟩
    ⟨"[A]\n".toList, [⟨"A".toList, []⟩]⟩ (by decide)

end TagLib
